import Mathlib

/-!
# Verification of the sport2vec fetch layer and play-by-play normalizer

Shallow embedding of `src/sport2vec/data/api.py` (rate-limited, cache-aware
fetch layer) and `src/sport2vec/data/nba/pbp.py` (event normalization),
with theorems settling the specification claims C1-C10.

Conventions:
* machine floats are modelled as rationals (`ℚ`); the arithmetic involved
  (seconds divided by 60, score differences) is exact in both;
* a Python value that may be polars `null` is an `Option`;
* an uncaught Python exception is an `Except.error` / an explicit abort flag.
-/

namespace Sport2Vec

/-! ## Fetch layer: `sport2vec/data/api.py`

`API._request` performs `session.get(...).json()` inside
`try: ... except requests.JSONDecodeError: return (False, None)`.
The possible outcomes of one underlying HTTP call are:

* the body was fetched (possibly from the `requests_cache` session cache)
  and parsed: `success fromCache doc`;
* the body was fetched but `r.json()` raised `requests.JSONDecodeError`:
  `jsonDecodeError`;
* the network request itself raised (timeout after 5 s, transport error):
  `netError`.  No `except` clause matches these exceptions.

`J` stands for the type of parsed JSON documents. -/
inductive ReqOutcome (J : Type) where
  | success (fromCache : Bool) (doc : J)
  | jsonDecodeError
  | netError
deriving DecidableEq

/-- `API._request`: returns `(r.from_cache, r.json())` on success,
`(False, None)` when `r.json()` raises `requests.JSONDecodeError`, and
propagates the exception (`Except.error`) on a network timeout or
transport error, which no `except` clause catches. -/
def requestResult {J : Type} : ReqOutcome J → Except Unit (Bool × Option J)
  | .success fromCache doc => .ok (fromCache, some doc)
  | .jsonDecodeError => .ok (false, none)
  | .netError => .error ()

/-- `API.requests`, observed through the documents it yields: the generator
chain `( json for _, json in _rate_limit(queries, ...) if json is not None )`
yields the parsed document of every successful `_request` in input order,
silently skips `None` results (JSON decode failures), and stops with an
uncaught exception as soon as one `_request` raises.  The `Bool` component
records whether the sequence was aborted by an exception instead of being
exhausted. -/
def requestsRun {J : Type} : List (ReqOutcome J) → List J × Bool
  | [] => ([], false)
  | o :: rest =>
    match requestResult o with
    | .error _ => ([], true)
    | .ok (_, none) => requestsRun rest
    | .ok (_, some doc) =>
      let r := requestsRun rest
      (doc :: r.1, r.2)

/-- The parsed documents of the outcomes whose `_request` succeeded,
in input order. -/
def successDocs {J : Type} (outs : List (ReqOutcome J)) : List J :=
  outs.filterMap fun o =>
    match o with
    | .success _ doc => some doc
    | _ => none

/-! ### `_rate_limit` (api.py lines 13-31)

```
next_throttled_item = time.monotonic()
for item in iterable:
    yield item
    if not limit_when(item):
        continue
    sleep_time = next_throttled_item - time.monotonic()
    next_throttled_item = time.monotonic() + delay_ms / 1000
    if sleep_time > 0:
        time.sleep(sleep_time)
```

We model wall-clock time as `ℚ` (seconds).  Pulling an item from the
underlying generator executes one `_request`; the item is characterised by
the time the pull takes (`dur`) and its `from_cache` flag.  In
`API.requests` the predicate is `limit_when = lambda x: not x[0]`, i.e.
throttling applies exactly to cache misses.  The consumer of the yielded
item is taken to be instantaneous, and the two `time.monotonic()` calls in
one loop iteration are taken to return the same instant. -/

/-- State of the `_rate_limit` generator between loop iterations:
the current monotonic clock and the `next_throttled_item` deadline. -/
structure ThrottleState where
  now : ℚ
  nextThrottledItem : ℚ
deriving DecidableEq

/-- One iteration of the `_rate_limit` loop for an item that took `dur`
seconds to produce, carrying its `from_cache` flag.  Returns the instant at
which the item's production started (the request start) and the state in
which the next item is pulled. -/
def rateLimitStep (delayMs : ℚ) (dur : ℚ) (fromCache : Bool)
    (st : ThrottleState) : ℚ × ThrottleState :=
  let start := st.now
  let afterYield := st.now + dur
  if fromCache then
    -- limit_when(item) is false: `continue`, no sleep, deadline untouched
    (start, ⟨afterYield, st.nextThrottledItem⟩)
  else
    let sleepTime := st.nextThrottledItem - afterYield
    let deadline := afterYield + delayMs / 1000
    if sleepTime > 0 then
      (start, ⟨afterYield + sleepTime, deadline⟩)
    else
      (start, ⟨afterYield, deadline⟩)

/-- Run `_rate_limit` over a list of `(duration, from_cache)` items,
collecting the instant at which each item's production (its HTTP request)
started. -/
def rateLimitRun (delayMs : ℚ) : List (ℚ × Bool) → ThrottleState → List ℚ
  | [], _ => []
  | it :: rest, st =>
    let r := rateLimitStep delayMs it.1 it.2 st
    r.1 :: rateLimitRun delayMs rest r.2

/-- Request start times for a batch, with the generator created at instant
`0`: the initial `next_throttled_item = time.monotonic()` equals the
instant the first item is pulled. -/
def requestStarts (delayMs : ℚ) (items : List (ℚ × Bool)) : List ℚ :=
  rateLimitRun delayMs items ⟨0, 0⟩

example : requestStarts 600 [(0, false), (0, false), (0, false), (0, false)]
    = [0, 0, 3/5, 3/5] := by
  norm_num [requestStarts, rateLimitRun, rateLimitStep]

example : requestsRun [ReqOutcome.success false 1, ReqOutcome.netError,
    ReqOutcome.success false 2] = ([1], true) := by decide

/-! ## Event normalization: `sport2vec/data/nba/pbp.py` (`clean_pbp`) -/

/-- `.str.strip_chars()` with no argument: remove leading and trailing
whitespace. -/
def stripChars (s : String) : String :=
  String.mk
    (((s.data.dropWhile Char.isWhitespace).reverse.dropWhile
      Char.isWhitespace).reverse)

/-- The null normalization applied to every string column before the
`select`: `pl.col(str).str.strip_chars().replace({"": None})`.
Whitespace is stripped; an empty result becomes null; nulls stay null. -/
def normalizeStr (s : Option String) : Option String :=
  s.bind fun v => if stripChars v = "" then none else some (stripChars v)

/-- The `action_type` rewrite table
`.replace({"Made Shot": "Shot", "Missed Shot": "Shot", "Violation": "Foul"})`:
polars `replace` maps listed values and passes every other value through
unchanged (nulls stay null). -/
def rewriteActionType (s : String) : String :=
  if s = "Made Shot" then "Shot"
  else if s = "Missed Shot" then "Shot"
  else if s = "Violation" then "Foul"
  else s

/-- Does the pattern `pat` occur at the head of `l`? -/
def headMatches : List Char → List Char → Bool
  | [], _ => true
  | _ :: _, [] => false
  | p :: ps, c :: cs => p = c && headMatches ps cs

/-- `.str.extract(r"(STEAL|BLOCK)")`: leftmost occurrence of `STEAL` or
`BLOCK` as a substring (at equal positions the left alternative wins,
which cannot be tested here since the two literals differ at the first
character); null when neither occurs. -/
def extractStealBlock : List Char → Option String
  | [] => none
  | c :: cs =>
    if headMatches "STEAL".data (c :: cs) then some "STEAL"
    else if headMatches "BLOCK".data (c :: cs) then some "BLOCK"
    else extractStealBlock cs

/-- `.str.to_titlecase()` restricted to one word: first letter upper-cased,
the rest lower-cased.  (In `clean_pbp` it is only ever applied to the
extracted literals `"STEAL"` and `"BLOCK"`.) -/
def toTitlecaseChars : Bool → List Char → List Char
  | _, [] => []
  | prevAlpha, c :: cs =>
    (if c.isAlpha then (if prevAlpha then c.toLower else c.toUpper) else c)
      :: toTitlecaseChars c.isAlpha cs

/-- `.str.to_titlecase()` on a string. -/
def toTitlecase (s : String) : String :=
  String.mk (toTitlecaseChars false s.data)

/-- The `event_type` expression (pbp.py lines 98-112):
`pl.col("action_type").replace({...}).fill_null(
  pl.col("description").str.extract(r"(STEAL|BLOCK)").str.to_titlecase())`.
`replace` rewrites the three listed action types and passes all other
values through; `fill_null` substitutes the description-derived value only
where `action_type` is null. -/
def eventType (actionType description : Option String) : Option String :=
  match actionType.map rewriteActionType with
  | some t => some t
  | none => (description.bind fun d => extractStealBlock d.data).map toTitlecase

/-- The `type` column of a raw action record after the null-normalization
`with_columns` step: `eventType` applied to the stripped,
empty-string-to-null-rewritten `action_type` and `description`. -/
def typeCol (actionType description : Option String) : Option String :=
  eventType (normalizeStr actionType) (normalizeStr description)

/-- The event types that get a `pl.when(event_type == t).then(payload)`
column in the `event_details` table (pbp.py lines 132-183), in source
order. -/
def eventDetailTypes : List String :=
  ["Block", "Free Throw", "Foul", "Jump Ball", "Rebound", "Shot", "Steal",
   "Substitution", "Turnover"]

/-- A `pl.when(event_type == t).then(payload)` column: the payload value
when the event type equals `t`, null otherwise (a null `event_type`
compares as null, and `when(null)` also yields null). -/
def whenEq {α : Type} (eventTy : Option String) (t : String) (payload : α) :
    Option α :=
  if eventTy = some t then some payload else none

/-! ### Player slots

`players_for_action` pairs each v2 `action_id` with
`pl.concat_arr(cs.matches("player._id").replace({0: None}))`, the array of
the three positional player-slot ids with the 0 sentinel nulled; `players`
is `action_id.replace_strict(*players_for_action, default=None)`, a lookup
into that table that yields null for an `action_id` absent from it. -/

/-- `replace_strict(old, new, default=None)`: map a v3 `action_id` to its
v2 player array; null when the id has no row in the v2 table. -/
def playersLookup (table : List (String × List (Option ℤ)))
    (actionId : String) : Option (List (Option ℤ)) :=
  match table.find? fun row => row.1 = actionId with
  | some row => some row.2
  | none => none

/-- `players.arr.get(i)`: `i`-th element of the player array; null when the
array itself is null or the element is the nulled 0 sentinel. -/
def arrGet (players : Option (List (Option ℤ))) (i : ℕ) : Option ℤ :=
  match players with
  | none => none
  | some l => (l.get? i).join

/-- `Block` payload, field `by`: `players.arr.get(2)`. -/
def blockBy (p : Option (List (Option ℤ))) : Option ℤ := arrGet p 2

/-- `Block` payload, field `on`: `players.arr.get(0)`. -/
def blockOn (p : Option (List (Option ℤ))) : Option ℤ := arrGet p 0

/-- `Foul` payload, field `by`: `players.arr.get(0)`. -/
def foulBy (p : Option (List (Option ℤ))) : Option ℤ := arrGet p 0

/-- `Foul` payload, field `on`: `players.arr.get(1)`. -/
def foulOn (p : Option (List (Option ℤ))) : Option ℤ := arrGet p 1

/-- `Jump Ball` payload, field `players`:
`pl.concat_arr(players.arr.get(0), players.arr.get(1))` — `concat_arr`
builds a two-element array in which a null input becomes a null element
(the array itself is not null). -/
def jumpBallPlayers (p : Option (List (Option ℤ))) : List (Option ℤ) :=
  [arrGet p 0, arrGet p 1]

/-- `Jump Ball` payload, field `recovered_by`: `players.arr.get(2)`. -/
def jumpBallRecoveredBy (p : Option (List (Option ℤ))) : Option ℤ := arrGet p 2

/-- `Rebound` payload, field `by`: `players.arr.get(0)`. -/
def reboundBy (p : Option (List (Option ℤ))) : Option ℤ := arrGet p 0

/-- `Shot` payload, field `by`: `players.arr.get(0)`. -/
def shotBy (p : Option (List (Option ℤ))) : Option ℤ := arrGet p 0

/-- `Shot` payload, field `assisted_by`: `players.arr.get(1)`. -/
def shotAssistedBy (p : Option (List (Option ℤ))) : Option ℤ := arrGet p 1

/-- `Steal` payload, field `by`: `players.arr.get(1)`. -/
def stealBy (p : Option (List (Option ℤ))) : Option ℤ := arrGet p 1

/-- `Steal` payload, field `stolen_from`: `players.arr.get(0)`. -/
def stealStolenFrom (p : Option (List (Option ℤ))) : Option ℤ := arrGet p 0

/-- `Substitution` payload, field `in`: `players.arr.get(1)`. -/
def substitutionIn (p : Option (List (Option ℤ))) : Option ℤ := arrGet p 1

/-- `Substitution` payload, field `out`: `players.arr.get(0)`. -/
def substitutionOut (p : Option (List (Option ℤ))) : Option ℤ := arrGet p 0

/-- `Turnover` payload, field `by`: `players.arr.get(0)`. -/
def turnoverBy (p : Option (List (Option ℤ))) : Option ℤ := arrGet p 0

/-- `Turnover` payload, field `recovered_by`: `players.arr.get(1)`. -/
def turnoverRecoveredBy (p : Option (List (Option ℤ))) : Option ℤ := arrGet p 1

/-! ### Clock parsing (pbp.py lines 117-123)

```
minutes_remaining = pl.sum_horizontal(
    pl.col("clock")
    .str.extract_groups(r"PT(?<minutes>\d+)M(?<seconds>[\d\.].+)S")
    .struct.with_fields(pl.field("*").cast(float))
    .struct.with_fields(pl.field("seconds").truediv(60))
    .struct.unnest()
)
```

The regex is unanchored with leftmost-first, greedy semantics: at the
first position where `PT` is followed by one or more digits, an `M`, a
digit-or-dot and at least one further character, the `seconds` group runs
greedily to the last `S` that leaves it at least two characters long.
`.` is modelled as matching any character (the clock strings contain no
newline).  A failed match makes both struct fields null; `cast(float)` of
the captured text is modelled as an exact rational. -/

/-- The `seconds` part of the clock regex, `(?<seconds>[\d\.].+)S`, matched
against the rest of the input: the first character must be a digit or a
dot, and the greedy `.+` makes the group extend to the last `S` of the
input that leaves at least one character for `.+`. -/
def matchSeconds (cs : List Char) : Option (List Char) :=
  match cs with
  | [] => none
  | c :: _ =>
    if c.isDigit || c = '.' then
      ((List.range cs.length).reverse.find? fun j =>
        decide (2 ≤ j) && (cs.getD j ' ' == 'S')).map fun j => cs.take j
    else none

/-- Match `PT(?<minutes>\d+)M(?<seconds>[\d\.].+)S` at the current
position: after the literal `PT`, the greedy `\d+` takes the maximal digit
run (no backtracking can help, since the following literal `M` is not a
digit), then `M`, then the seconds group. -/
def matchClockHere (l : List Char) : Option (List Char × List Char) :=
  match l with
  | 'P' :: 'T' :: r =>
    let mins := r.takeWhile Char.isDigit
    if mins = [] then none
    else
      match r.dropWhile Char.isDigit with
      | 'M' :: r2 => (matchSeconds r2).map fun secs => (mins, secs)
      | _ => none
  | _ => none

/-- Unanchored leftmost match of the clock regex: try each start position
from the left. -/
def matchClock : List Char → Option (List Char × List Char)
  | [] => none
  | c :: cs =>
    match matchClockHere (c :: cs) with
    | some r => some r
    | none => matchClock cs

/-- Numeric value of a digit run (the `minutes` capture cast to a
number). -/
def parseNatDigits (ds : List Char) : ℕ :=
  ds.foldl (fun acc c => 10 * acc + (c.toNat - 48)) 0

/-- `cast(float)` of the `seconds` capture: digits with at most one
decimal point and at least one digit; any other text fails the cast
(modelled as null).  The capture is returned as the triple
(integer part, fraction digits value, fraction digit count), from which
the exact value is `decimalValue`. -/
def parseDecimalParts (cs : List Char) : Option (ℕ × ℕ × ℕ) :=
  match cs.splitOn '.' with
  | [intPart] =>
    if intPart ≠ [] ∧ intPart.all Char.isDigit then
      some (parseNatDigits intPart, 0, 0) else none
  | [intPart, fracPart] =>
    if (intPart ++ fracPart) ≠ [] ∧ (intPart ++ fracPart).all Char.isDigit then
      some (parseNatDigits intPart, parseNatDigits fracPart, fracPart.length)
    else none
  | _ => none

/-- Exact value of a parsed decimal literal. -/
def decimalValue (p : ℕ × ℕ × ℕ) : ℚ :=
  (p.1 : ℚ) + (p.2.1 : ℚ) / 10 ^ p.2.2

/-- The fully matched and parsed clock string: the `minutes` capture's
value and the `seconds` capture's decimal parts; `none` when the regex
does not match (or the seconds capture fails the float cast). -/
def clockParts (clock : String) : Option (ℕ × ℕ × ℕ × ℕ) :=
  match matchClock clock.data with
  | none => none
  | some (mins, secs) =>
    (parseDecimalParts secs).map fun p => (parseNatDigits mins, p)

/-- The two struct fields of `minutes_remaining` after the casts and the
division of seconds by 60, summed; `none` when the clock string does not
match the regex (both fields null; the surrounding `pl.sum_horizontal`
then yields 0 for the row). -/
def minutesRemaining (clock : String) : Option ℚ :=
  (clockParts clock).map fun q => (q.1 : ℚ) + decimalValue q.2 / 60

/-! ### Scores and points (pbp.py lines 125-126)

```
score = cs.starts_with("score_").str.to_integer().fill_null(strategy="forward")
points = pl.sum_horizontal(score.diff()).over("game_id").alias("points")
```

The whole expression, forward fill included, is windowed by
`.over("game_id")`, so it is a function of one game's `score_home` and
`score_away` columns (in row order); it never sees another game's rows.
The columns are modelled after `str.to_integer()`, as nullable
integers. -/

/-- `fill_null(strategy="forward")` with the last seen value so far:
carries the most recent non-null value forward; leading nulls stay
null. -/
def ffillFrom (last : Option ℤ) : List (Option ℤ) → List (Option ℤ)
  | [] => []
  | x :: rest =>
    match x with
    | some v => some v :: ffillFrom (some v) rest
    | none => last :: ffillFrom last rest

/-- `fill_null(strategy="forward")` on one game's column. -/
def ffill (xs : List (Option ℤ)) : List (Option ℤ) := ffillFrom none xs

/-- `.diff()` (step 1, null_behavior "ignore"): element-wise difference
with the previous row; the first row, and any row where either operand is
null, is null. -/
def diffCol : List (Option ℤ) → List (Option ℤ)
  | [] => []
  | x :: rest =>
    none :: List.zipWith (fun prev cur =>
      match prev, cur with
      | some a, some b => some (b - a)
      | _, _ => none) (x :: rest) rest

/-- The `points` column for one game:
`pl.sum_horizontal(score.diff())` where `score` is the pair of
forward-filled columns — `sum_horizontal` ignores nulls, so a row where
both deltas are null (in particular the first row) gets 0. -/
def pointsCol (home away : List (Option ℤ)) : List ℤ :=
  List.zipWith (fun dh da => dh.getD 0 + da.getD 0)
    (diffCol (ffill home)) (diffCol (ffill away))

/-! ### `action_id` (pbp.py lines 76-84)

```
action_id = pl.format(
    "{}-{}", "game_id",
    pl.col("action_number").cast(str).str.pad_start(4, "0"),
).cast(pl.Categorical(ordering="lexical"))
```

The categorical cast with lexical ordering makes the column compare as its
string value. -/

/-- `.str.pad_start(n, c)`: left-pad to length at least `n` with `c`. -/
def padStart (n : ℕ) (c : Char) (s : String) : String :=
  if n ≤ s.length then s
  else String.mk (List.replicate (n - s.length) c ++ s.data)

/-- The `action_id` of a record: `pl.format("{}-{}", game_id,
action_number.cast(str).str.pad_start(4, "0"))`, where `cast(str)` of an
integer is its decimal representation. -/
def actionIdStr (gameId : String) (actionNumber : ℕ) : String :=
  gameId ++ "-" ++ padStart 4 '0' (Nat.repr actionNumber)

example : typeCol (some "Made Shot") none = some "Shot" := by decide
example : typeCol (some "  ") (some "MILLER STEAL (3 STL)") = some "Steal" := by
  decide
example : typeCol (some "Ejection") (some "SMITH STEAL (1 STL)")
    = some "Ejection" := by decide
example : typeCol none (some "JAMES BLOCK (2 BLK)") = some "Block" := by decide

example : minutesRemaining "PT11M30S" = some (23/2) := by
  have h : clockParts "PT11M30S" = some (11, 30, 0, 0) := by decide
  rw [minutesRemaining, h]
  norm_num [decimalValue]
example : minutesRemaining "PT11M5S" = none := by
  have h : clockParts "PT11M5S" = none := by decide
  rw [minutesRemaining, h]
  rfl
example : minutesRemaining "PT0M05.00S" = some (1/12) := by
  have h : clockParts "PT0M05.00S" = some (0, 5, 0, 2) := by decide
  rw [minutesRemaining, h]
  norm_num [decimalValue]
example : pointsCol [some 0, none, some 2] [some 0, some 3, none] = [0, 3, 2] := by
  decide
example : actionIdStr "0022200001" 7 = "0022200001-0007" := by decide

/-! ## Claims C1 and C7: fetch-layer error handling and ordering -/

/-- C1, counterexample: a network error (timeout / transport error) in the
middle of a batch is not absorbed.  The run aborts with an uncaught
exception (flag `true`) and the item after the failing one — a success
that the claim says should still be emitted — never appears, even though
the successfully fetched documents of the batch are `[1, 2]`. -/
theorem claim_C1_counterexample :
    requestsRun [ReqOutcome.success false (1 : ℕ), ReqOutcome.netError,
      ReqOutcome.success false 2] = ([1], true)
    ∧ successDocs [ReqOutcome.success false (1 : ℕ), ReqOutcome.netError,
      ReqOutcome.success false 2] = [1, 2] := by
  decide

/-- C1, amended: a JSON-decode failure is absorbed per item — nothing is
emitted for it and the run continues exactly as if the item were not
there.  A network timeout or transport error, by contrast, is not caught
by `API._request`: the exception propagates (abort flag `true`) and the
output stops after the successful documents that preceded it. -/
theorem claim_C1_theorem {J : Type} (xs ys : List (ReqOutcome J))
    (h : ∀ x ∈ xs, x ≠ ReqOutcome.netError) :
    requestsRun (xs ++ ReqOutcome.jsonDecodeError :: ys) = requestsRun (xs ++ ys)
    ∧ requestsRun (xs ++ ReqOutcome.netError :: ys) = (successDocs xs, true) := by
  induction xs with
  | nil => simp [requestsRun, requestResult, successDocs]
  | cons x xs ih =>
    have hx : x ≠ ReqOutcome.netError := h x (List.mem_cons_self x xs)
    obtain ⟨ih1, ih2⟩ := ih fun a ha => h a (List.mem_cons_of_mem x ha)
    cases x with
    | success fromCache doc =>
      simp [requestsRun, requestResult, successDocs, ih1, ih2]
    | jsonDecodeError =>
      simp [requestsRun, requestResult, successDocs, ih1, ih2]
    | netError => exact absurd rfl hx

/-- C1, witness: the amended theorem at a concrete batch. -/
theorem claim_C1_witness :
    requestsRun [ReqOutcome.success false (7 : ℕ), ReqOutcome.jsonDecodeError,
        ReqOutcome.success true 8]
      = requestsRun [ReqOutcome.success false (7 : ℕ), ReqOutcome.success true 8]
    ∧ requestsRun [ReqOutcome.success false (7 : ℕ), ReqOutcome.netError,
        ReqOutcome.success true 8]
      = (successDocs [ReqOutcome.success false (7 : ℕ)], true) :=
  claim_C1_theorem [ReqOutcome.success false 7] [ReqOutcome.success true 8]
    (by decide)

/-- C7, counterexample: with a network error among the inputs the output
is not "the parsed documents of the successfully fetched-and-parsed
inputs with failed items omitted" — the run aborts (flag `true`) and the
success after the error is lost. -/
theorem claim_C7_counterexample :
    ¬ (requestsRun [ReqOutcome.success true (5 : ℕ), ReqOutcome.netError,
        ReqOutcome.success false 6]
      = (successDocs [ReqOutcome.success true (5 : ℕ), ReqOutcome.netError,
        ReqOutcome.success false 6], false)) := by
  decide

/-- C7, amended: as long as no request raises a network exception, the
output of `API.requests` is exactly the parsed documents of the
successful items, in input order, with JSON-decode failures omitted — no
reordering and no duplication (the output equals `successDocs`, a
`filterMap` of the input). -/
theorem claim_C7_theorem {J : Type} (outs : List (ReqOutcome J))
    (h : ∀ o ∈ outs, o ≠ ReqOutcome.netError) :
    requestsRun outs = (successDocs outs, false) := by
  induction outs with
  | nil => simp [requestsRun, successDocs]
  | cons o rest ih =>
    have ho : o ≠ ReqOutcome.netError := h o (List.mem_cons_self o rest)
    have ih' := ih fun a ha => h a (List.mem_cons_of_mem o ha)
    cases o with
    | success fromCache doc => simp [requestsRun, requestResult, successDocs, ih']
    | jsonDecodeError => simpa [requestsRun, requestResult, successDocs] using ih'
    | netError => exact absurd rfl ho

/-- C7, witness: the amended theorem at a concrete batch (one cache hit,
one decode failure, one cache miss). -/
theorem claim_C7_witness :
    requestsRun [ReqOutcome.success true (3 : ℕ), ReqOutcome.jsonDecodeError,
        ReqOutcome.success false 4]
      = (successDocs [ReqOutcome.success true (3 : ℕ), ReqOutcome.jsonDecodeError,
        ReqOutcome.success false 4], false) :=
  claim_C7_theorem [ReqOutcome.success true 3, ReqOutcome.jsonDecodeError,
    ReqOutcome.success false 4] (by decide)

/-! ## Claims C5 and C6: throttling -/

/-- C5: evaluation of `_rate_limit` at the failing input.  Four
consecutive cache-miss requests, each taking (essentially) no time, with
`delay_ms = 600`, start at 0 s, 0 s, 0.6 s and 0.6 s: requests 1-2 and
3-4 run back-to-back, and the whole batch spans 0.6 s < (4-1)*0.6 s from
first request start to last request start.  The deadline update
`next_throttled_item = time.monotonic() + delay_ms / 1000` reads the
clock before the subsequent `time.sleep`, so after every sleep the stored
deadline is already in the past and the next request is admitted
immediately. -/
theorem claim_C5_theorem :
    requestStarts 600 [(0, false), (0, false), (0, false), (0, false)]
      = [0, 0, 3/5, 3/5]
    ∧ ((3/5 : ℚ) - 0) < (4 - 1) * (600 / 1000) := by
  constructor
  · norm_num [requestStarts, rateLimitRun, rateLimitStep]
  · norm_num

/-- C6: a cache hit passes through `_rate_limit` unthrottled.  For an item
with `from_cache = true`, `limit_when` is false and the loop `continue`s:
the item is yielded at the instant its production started plus its own
duration, no sleep happens (the next item is pulled at exactly that
instant), and `next_throttled_item` is left unchanged, so only cache
misses update or wait on the deadline. -/
theorem claim_C6_theorem (delayMs dur : ℚ) (st : ThrottleState)
    (rest : List (ℚ × Bool)) :
    (rateLimitStep delayMs dur true st).1 = st.now
    ∧ (rateLimitStep delayMs dur true st).2.now = st.now + dur
    ∧ (rateLimitStep delayMs dur true st).2.nextThrottledItem
        = st.nextThrottledItem
    ∧ rateLimitRun delayMs ((dur, true) :: rest) st
        = st.now :: rateLimitRun delayMs rest ⟨st.now + dur, st.nextThrottledItem⟩ := by
  refine ⟨rfl, rfl, rfl, ?_⟩
  simp [rateLimitRun, rateLimitStep]

/-! ## Claims C2 and C3: event-type derivation -/

/-- C2, counterexample: the raw action type `"Ejection"` is neither in the
rewrite table nor an enumerated event type, yet the derived event type is
`"Ejection"` itself, not `"Other"` — polars `replace` passes unlisted
values through unchanged, and no expression in `clean_pbp` ever produces
an `"Other"` bucket. -/
theorem claim_C2_counterexample :
    typeCol (some "Ejection") none = some "Ejection"
    ∧ typeCol (some "Ejection") none ≠ some "Other" := by
  decide

/-- C2, amended: an action type outside the rewrite table keeps its raw
value as the derived event type (it is not rewritten to `Other`); the
record is still normalized — its `type` column carries that value — and
when it is moreover not one of the payload-bearing event types, every
`pl.when(event_type == t).then(...)` payload column of the record is
null.  No error is raised: the derivation is a total function. -/
theorem claim_C2_theorem {α : Type} (s : String) (d : Option String) (p : α)
    (h1 : s ≠ "Made Shot") (h2 : s ≠ "Missed Shot") (h3 : s ≠ "Violation")
    (h4 : s ∉ eventDetailTypes) :
    eventType (some s) d = some s
    ∧ ∀ t ∈ eventDetailTypes, whenEq (eventType (some s) d) t p = none := by
  have hs : eventType (some s) d = some s := by
    simp [eventType, rewriteActionType, h1, h2, h3]
  refine ⟨hs, fun t ht => ?_⟩
  rw [hs, whenEq, if_neg]
  intro hst
  exact h4 (by rw [Option.some.inj hst]; exact ht)

/-- C2, witness: the amended theorem at the concrete action type
`"Ejection"`. -/
theorem claim_C2_witness :
    eventType (some "Ejection") none = some "Ejection"
    ∧ ∀ t ∈ eventDetailTypes, whenEq (eventType (some "Ejection") none) t (0 : ℕ)
      = none :=
  claim_C2_theorem "Ejection" none 0 (by decide) (by decide) (by decide)
    (by decide)

/-- C3, counterexample: an action type that does not resolve to any
enumerated event type does **not** trigger the description fallback — the
description here contains `"STEAL"`, but the derived event type is the
raw `"Ejection"`, not `"Steal"`.  The `fill_null` fallback fires only
where `action_type` is null. -/
theorem claim_C3_counterexample :
    typeCol (some "Ejection") (some "SMITH STEAL (1 STL)") = some "Ejection"
    ∧ typeCol (some "Ejection") (some "SMITH STEAL (1 STL)") ≠ some "Steal" := by
  decide

/-- C3, amended: the rewrite table maps `"Made Shot"` and `"Missed Shot"`
to `Shot` and `"Violation"` to `Foul`, every other non-null action type
passes through unchanged, and the text-based fallback — search the
description for `STEAL`/`BLOCK`, title-case the match — applies exactly
when `action_type` is null (a null description, or one containing
neither word, then leaves the event type null). -/
theorem claim_C3_theorem :
    (∀ d, eventType (some "Made Shot") d = some "Shot")
    ∧ (∀ d, eventType (some "Missed Shot") d = some "Shot")
    ∧ (∀ d, eventType (some "Violation") d = some "Foul")
    ∧ (∀ s d, s ≠ "Made Shot" → s ≠ "Missed Shot" → s ≠ "Violation" →
        eventType (some s) d = some s)
    ∧ (∀ d, eventType none d
        = (d.bind fun v => extractStealBlock v.data).map toTitlecase)
    ∧ eventType none (some "MILLER STEAL (3 STL)") = some "Steal"
    ∧ eventType none (some "JAMES BLOCK (2 BLK)") = some "Block"
    ∧ eventType none (some "Timeout: Regular") = none
    ∧ eventType none none = none := by
  refine ⟨fun d => rfl, fun d => rfl, fun d => rfl,
    fun s d h1 h2 h3 => by simp [eventType, rewriteActionType, h1, h2, h3],
    fun d => rfl, by decide, by decide, by decide, rfl⟩

/-- C3, witness: the pass-through conjunct of the amended theorem at the
concrete unlisted action type `"Jump Ball"`. -/
theorem claim_C3_witness :
    eventType (some "Jump Ball") (some "Jump Ball SMITH vs. JONES")
      = some "Jump Ball" :=
  claim_C3_theorem.2.2.2.1 "Jump Ball" (some "Jump Ball SMITH vs. JONES")
    (by decide) (by decide) (by decide)

/-! ## Claim C4: clock parsing -/

/-- A run of characters satisfying `p` followed by a character that does
not satisfy it splits cleanly under `takeWhile`/`dropWhile`. -/
theorem takeWhile_dropWhile_append {p : Char → Bool} :
    ∀ (l1 : List Char) (c : Char) (l2 : List Char), l1.all p = true →
      p c = false →
      (l1 ++ c :: l2).takeWhile p = l1 ∧ (l1 ++ c :: l2).dropWhile p = c :: l2
  | [], c, l2, _, hc => by simp [List.takeWhile, List.dropWhile, hc]
  | a :: l1, c, l2, h, hc => by
    have hac : p a = true ∧ l1.all p = true := by simpa using h
    have ih := takeWhile_dropWhile_append l1 c l2 hac.2 hc
    simp [List.takeWhile, List.dropWhile, hac.1, ih.1, ih.2]

/-- The `seconds` regex fragment matched against `secs ++ "S"`: when
`secs` has at least two characters and starts with a digit or a dot, the
greedy match captures exactly `secs` (its last possible `S` is the final
one). -/
theorem matchSeconds_append (secs : List Char) (h2 : 2 ≤ secs.length)
    (hhead : ((secs.getD 0 ' ').isDigit || secs.getD 0 ' ' = '.') = true) :
    matchSeconds (secs ++ ['S']) = some secs := by
  obtain ⟨c, rest, rfl⟩ : ∃ c rest, secs = c :: rest := by
    cases secs with
    | nil => simp at h2
    | cons c rest => exact ⟨c, rest, rfl⟩
  have hc : (c.isDigit || c = '.') = true := by simpa using hhead
  have hlen : ((c :: rest) ++ ['S']).length = (c :: rest).length + 1 := by
    simp
  have hrange : (List.range (((c :: rest) ++ ['S']).length)).reverse
      = (c :: rest).length :: (List.range ((c :: rest).length)).reverse := by
    rw [hlen, List.range_succ, List.reverse_append]
    simp
  have hgetD : ((c :: rest) ++ ['S']).getD ((c :: rest).length) ' ' = 'S' := by
    simp [List.getD_eq_getElem?_getD, List.getElem?_append_right]
  show (if c.isDigit || c = '.' then _ else none) = some (c :: rest)
  rw [if_pos hc, hrange, List.find?_cons_of_pos, Option.map_some']
  · rw [List.take_left']
    simp
  · simp only [Bool.and_eq_true, decide_eq_true_eq, beq_iff_eq]
    exact ⟨h2, hgetD⟩

/-- One-step unfolding of `matchClockHere` after the literal `PT`. -/
theorem matchClockHere_PT (r : List Char) :
    matchClockHere ('P' :: 'T' :: r)
      = (if r.takeWhile Char.isDigit = [] then none
         else
           match r.dropWhile Char.isDigit with
           | 'M' :: r2 => (matchSeconds r2).map fun secs =>
               (r.takeWhile Char.isDigit, secs)
           | _ => none) := rfl

/-- C4, counterexample: `"PT11M5S"` is of the claimed form
`PT<minutes>M<seconds>S` with minutes 11 and seconds 5, but the regex
`PT(?<minutes>\d+)M(?<seconds>[\d\.].+)S` requires at least two
characters in the seconds field (`[\d\.]` plus a non-empty `.+`), so the
string does not parse: `minutes_remaining` is not 11 + 5/60 (the struct
fields are null and the summed column falls back to 0). -/
theorem claim_C4_counterexample :
    minutesRemaining "PT11M5S" = none
    ∧ minutesRemaining "PT11M5S" ≠ some ((11 : ℚ) + 5 / 60) := by
  have h : clockParts "PT11M5S" = none := by decide
  simp [minutesRemaining, h]

/-- C4, amended: for clock strings `PT<minutes>M<seconds>S` whose seconds
field has at least **two** characters (digits with an optional decimal
point, e.g. zero-padded `"30"` or fractional `"5.0"`), parsing succeeds
and `minutes_remaining` equals minutes + seconds/60 exactly; a
single-character seconds field fails the regex instead. -/
theorem claim_C4_theorem (mins secs : List Char) (p : ℕ × ℕ × ℕ)
    (hm : mins ≠ []) (hmd : mins.all Char.isDigit = true)
    (hs2 : 2 ≤ secs.length)
    (hhead : ((secs.getD 0 ' ').isDigit || secs.getD 0 ' ' = '.') = true)
    (hp : parseDecimalParts secs = some p) :
    minutesRemaining (String.mk ('P' :: 'T' :: (mins ++ 'M' :: (secs ++ ['S']))))
      = some ((parseNatDigits mins : ℚ) + decimalValue p / 60) := by
  have hM : Char.isDigit 'M' = false := by decide
  have hsplit := takeWhile_dropWhile_append mins 'M' (secs ++ ['S']) hmd hM
  have hms := matchSeconds_append secs hs2 hhead
  have hch : matchClockHere ('P' :: 'T' :: (mins ++ 'M' :: (secs ++ ['S'])))
      = some (mins, secs) := by
    rw [matchClockHere_PT, if_neg (by rw [hsplit.1]; exact hm), hsplit.2,
      hsplit.1]
    show Option.map (fun s => (mins, s)) (matchSeconds (secs ++ ['S']))
      = some (mins, secs)
    rw [hms]
    rfl
  have hmc : matchClock ('P' :: 'T' :: (mins ++ 'M' :: (secs ++ ['S'])))
      = some (mins, secs) := by
    rw [show matchClock ('P' :: 'T' :: (mins ++ 'M' :: (secs ++ ['S'])))
        = match matchClockHere ('P' :: 'T' :: (mins ++ 'M' :: (secs ++ ['S']))) with
          | some r => some r
          | none => matchClock ('T' :: (mins ++ 'M' :: (secs ++ ['S']))) from rfl,
      hch]
  have hcp : clockParts
        (String.mk ('P' :: 'T' :: (mins ++ 'M' :: (secs ++ ['S']))))
      = some (parseNatDigits mins, p) := by
    simp only [clockParts]
    rw [hmc]
    show Option.map (fun q => (parseNatDigits mins, q)) (parseDecimalParts secs)
      = some (parseNatDigits mins, p)
    rw [hp]
    rfl
  simp [minutesRemaining, hcp]

/-- C4, witness: the amended theorem at the concrete clock string
`"PT11M30S"` (minutes `11`, seconds `30`). -/
theorem claim_C4_witness :
    minutesRemaining
        (String.mk ('P' :: 'T' :: (['1', '1'] ++ 'M' :: (['3', '0'] ++ ['S']))))
      = some ((parseNatDigits ['1', '1'] : ℚ) + decimalValue (30, 0, 0) / 60) :=
  claim_C4_theorem ['1', '1'] ['3', '0'] (30, 0, 0) (by decide) (by decide)
    (by decide) (by decide) (by decide)

/-! ## Claim C8: `points_scored` -/

/-- Order constraint between two adjacent forward-filled cells: whenever
both carry values, they are nondecreasing. -/
def OptPairLe (a b : Option ℤ) : Prop :=
  ∀ x y, a = some x → b = some y → x ≤ y

/-- Once the forward fill has seen a value, every later cell carries a
value. -/
theorem ffillFrom_isSome (v : ℤ) :
    ∀ xs : List (Option ℤ), ∀ y ∈ ffillFrom (some v) xs, y.isSome = true := by
  intro xs
  induction xs generalizing v with
  | nil => simp [ffillFrom]
  | cons x rest ih =>
    intro y hy
    cases x with
    | some a =>
      rcases (by simpa [ffillFrom] using hy : y = some a ∨ y ∈ ffillFrom (some a) rest) with
        h | h
      · simp [h]
      · exact ih a y h
    | none =>
      rcases (by simpa [ffillFrom] using hy : y = some v ∨ y ∈ ffillFrom (some v) rest) with
        h | h
      · simp [h]
      · exact ih v y h

/-- The head of a forward-filled column is at least the fill value,
whenever both carry values. -/
theorem ffillFrom_head_le (v : ℤ) (rest : List (Option ℤ))
    (hc : List.Chain' (· ≤ ·) ((some v :: rest).filterMap id)) :
    ∀ b ∈ (ffillFrom (some v) rest).head?, OptPairLe (some v) b := by
  cases rest with
  | nil => simp [ffillFrom]
  | cons y rest' =>
    cases y with
    | some a =>
      have hva : v ≤ a := by
        have : List.Chain' (· ≤ ·) (v :: a :: rest'.filterMap id) := by
          simpa using hc
        exact (List.chain'_cons.mp this).1
      intro b hb x z hx hz
      simp only [ffillFrom, List.head?_cons, Option.mem_def, Option.some.injEq] at hb
      subst hb
      cases hx
      cases hz
      exact hva
    | none =>
      intro b hb x z hx hz
      simp only [ffillFrom, List.head?_cons, Option.mem_def, Option.some.injEq] at hb
      subst hb
      cases hx
      cases hz
      exact le_refl _

/-- Forward-filling a column whose present values are nondecreasing yields
a column whose adjacent present values are nondecreasing. -/
theorem ffillFrom_pairs :
    ∀ (xs : List (Option ℤ)) (last : Option ℤ),
      List.Chain' (· ≤ ·) ((last :: xs).filterMap id) →
      List.Chain' OptPairLe (ffillFrom last xs) := by
  intro xs
  induction xs with
  | nil => intro last _; simp [ffillFrom]
  | cons x rest ih =>
    intro last h
    cases x with
    | some a =>
      have hchain : List.Chain' (· ≤ ·) ((some a :: rest).filterMap id) := by
        cases last with
        | none => simpa using h
        | some w =>
          exact (by simpa using h :
            List.Chain' (· ≤ ·) (w :: a :: rest.filterMap id)).tail
      have htail := ih (some a) hchain
      have hhead := ffillFrom_head_le a rest hchain
      show List.Chain' OptPairLe (some a :: ffillFrom (some a) rest)
      exact List.chain'_cons'.mpr ⟨hhead, htail⟩
    | none =>
      have hchain : List.Chain' (· ≤ ·) ((last :: rest).filterMap id) := by
        cases last with
        | none => simpa using h
        | some w => simpa using h
      have htail := ih last hchain
      show List.Chain' OptPairLe (last :: ffillFrom last rest)
      refine List.chain'_cons'.mpr ⟨?_, htail⟩
      cases last with
      | none => intro b _ x z hx _; cases hx
      | some w => exact ffillFrom_head_le w rest hchain

/-- Adjacent differences of a column with nondecreasing present values are
nonnegative (null differences count as 0, as under `sum_horizontal`). -/
theorem zip_sub_nonneg :
    ∀ l : List (Option ℤ), List.Chain' OptPairLe l →
      ∀ d ∈ List.zipWith (fun prev cur =>
          match prev, cur with
          | some a, some b => some (b - a)
          | _, _ => none) l l.tail, 0 ≤ d.getD 0 := by
  intro l
  induction l with
  | nil => simp
  | cons a l' ih =>
    intro h d hd
    cases l' with
    | nil => simp at hd
    | cons b l'' =>
      rw [List.tail_cons, List.zipWith_cons_cons] at hd
      rcases List.mem_cons.mp hd with h1 | h1
      · rw [h1]
        cases a with
        | none => cases b <;> simp
        | some x =>
          cases b with
          | none => simp
          | some y =>
            have hxy : x ≤ y := (List.chain'_cons.mp h).1 x y rfl rfl
            simpa using sub_nonneg.mpr hxy
      · exact ih (List.chain'_cons.mp h).2 d h1

/-- All differences produced by `diffCol` on a column with nondecreasing
present values are nonnegative. -/
theorem diffCol_nonneg (l : List (Option ℤ)) (h : List.Chain' OptPairLe l) :
    ∀ d ∈ diffCol l, 0 ≤ d.getD 0 := by
  cases l with
  | nil => simp [diffCol]
  | cons a l' =>
    intro d hd
    rcases (by simpa [diffCol] using hd :
        d = none ∨ d ∈ List.zipWith _ (a :: l') l') with h1 | h1
    · subst h1; simp
    · exact zip_sub_nonneg (a :: l') h d h1

/-- An element of a `zipWith` comes from a pair of elements of the two
lists. -/
theorem exists_of_mem_zipWith {α β γ : Type} {g : α → β → γ} :
    ∀ {l1 : List α} {l2 : List β} {c : γ}, c ∈ List.zipWith g l1 l2 →
      ∃ a b, a ∈ l1 ∧ b ∈ l2 ∧ c = g a b := by
  intro l1
  induction l1 with
  | nil => intro l2 c hc; simp at hc
  | cons x l1' ih =>
    intro l2 c hc
    cases l2 with
    | nil => simp at hc
    | cons y l2' =>
      rw [List.zipWith_cons_cons] at hc
      rcases List.mem_cons.mp hc with h1 | h1
      · exact ⟨x, y, by simp, by simp, h1⟩
      · obtain ⟨a, b, ha2, hb2, hEq⟩ := ih h1
        exact ⟨a, b, List.mem_cons_of_mem x ha2, List.mem_cons_of_mem y hb2, hEq⟩

/-- The per-row deltas of a fully known integer column, as the spec words
them: "compute the per-action delta against the previous row's
forward-filled values"; the first row of a game has no previous row and
contributes 0. -/
def specDeltas : List ℤ → List ℤ
  | [] => []
  | x :: rest => 0 :: List.zipWith (fun a b => b - a) (x :: rest) rest

/-- `points_scored` as the spec describes it (stated for comparison with
`pointsCol`, which is the embedding of the source expression):
forward-fill `score_home`/`score_away` within the game, take per-row
deltas of the filled values, and sum the home and away delta of each row.
Under the theorem's hypothesis that the first row's scores are present,
the forward-filled columns contain no nulls and `Option.getD 0` reads off
their values. -/
def specPointsScored (home away : List (Option ℤ)) : List ℤ :=
  List.zipWith (· + ·)
    (specDeltas ((ffill home).map fun o => o.getD 0))
    (specDeltas ((ffill away).map fun o => o.getD 0))

/-- On an all-present column, the difference column of `diffCol` reads off
(under `Option.getD 0`, as `sum_horizontal` does) as the spec's integer
deltas. -/
theorem zip_sub_map_getD :
    ∀ l : List (Option ℤ), (∀ y ∈ l, y.isSome = true) →
      (List.zipWith (fun prev cur =>
          match prev, cur with
          | some a, some b => some (b - a)
          | _, _ => none) l l.tail).map (fun o => o.getD 0)
        = List.zipWith (fun a b => b - a) (l.map fun o => o.getD 0)
            ((l.map fun o => o.getD 0).tail) := by
  intro l
  induction l with
  | nil => simp
  | cons a l' ih =>
    intro h
    cases l' with
    | nil => simp
    | cons b l'' =>
      obtain ⟨x, rfl⟩ : ∃ x, a = some x :=
        Option.isSome_iff_exists.mp (h a (by simp))
      obtain ⟨y, rfl⟩ : ∃ y, b = some y :=
        Option.isSome_iff_exists.mp (h b (by simp))
      have ih' := ih fun z hz => h z (List.mem_cons_of_mem _ hz)
      simp only [List.tail_cons, List.zipWith_cons_cons, List.map_cons] at ih' ⊢
      exact congrArg (List.cons (y - x)) ih'

/-- On an all-present column, `diffCol` reads off as `specDeltas`. -/
theorem diffCol_map_getD (l : List (Option ℤ)) (h : ∀ y ∈ l, y.isSome = true) :
    (diffCol l).map (fun o => o.getD 0) = specDeltas (l.map fun o => o.getD 0) := by
  cases l with
  | nil => simp [diffCol, specDeltas]
  | cons a l' =>
    show (none :: List.zipWith _ (a :: l') l').map (fun o => o.getD 0)
      = 0 :: List.zipWith (fun x y => y - x) ((a :: l').map fun o => o.getD 0)
          (((a :: l')).map fun o => o.getD 0).tail
    rw [List.map_cons]
    have := zip_sub_map_getD (a :: l') h
    rw [List.tail_cons] at this
    rw [this]
    simp

/-- C8: within one game (score expressions are windowed per `game_id`,
so neither the forward fill nor the differencing sees another game's
rows), provided the game's first row reports both cumulative scores and
the reported scores are nondecreasing in row order (they are cumulative),
the `points` column equals the spec's sum of forward-filled home and away
deltas, and every entry is ≥ 0. -/
theorem claim_C8_theorem (home away : List (Option ℤ))
    (hh : ∃ v, home.head? = some (some v))
    (ha : ∃ v, away.head? = some (some v))
    (hmh : List.Chain' (· ≤ ·) (home.filterMap id))
    (hma : List.Chain' (· ≤ ·) (away.filterMap id)) :
    pointsCol home away = specPointsScored home away
    ∧ ∀ q ∈ pointsCol home away, 0 ≤ q := by
  have hsomeh : ∀ y ∈ ffill home, y.isSome = true := by
    obtain ⟨v, hv⟩ := hh
    cases home with
    | nil => simp at hv
    | cons x rest =>
      have : x = some v := by simpa using hv
      subst this
      intro y hy
      exact ffillFrom_isSome v (some v :: rest) y hy
  have hsomea : ∀ y ∈ ffill away, y.isSome = true := by
    obtain ⟨v, hv⟩ := ha
    cases away with
    | nil => simp at hv
    | cons x rest =>
      have : x = some v := by simpa using hv
      subst this
      intro y hy
      exact ffillFrom_isSome v (some v :: rest) y hy
  constructor
  · show List.zipWith (fun dh da => dh.getD 0 + da.getD 0)
        (diffCol (ffill home)) (diffCol (ffill away)) = _
    rw [show (fun dh da : Option ℤ => dh.getD 0 + da.getD 0)
        = fun dh da => (fun o : Option ℤ => o.getD 0) dh
            + (fun o : Option ℤ => o.getD 0) da from rfl]
    rw [← List.zipWith_map (· + ·) (fun o : Option ℤ => o.getD 0)
      (fun o : Option ℤ => o.getD 0) (diffCol (ffill home)) (diffCol (ffill away))]
    rw [diffCol_map_getD (ffill home) hsomeh, diffCol_map_getD (ffill away) hsomea]
    rfl
  · intro q hq
    have hpairsh : List.Chain' OptPairLe (ffill home) :=
      ffillFrom_pairs home none (by simpa using hmh)
    have hpairsa : List.Chain' OptPairLe (ffill away) :=
      ffillFrom_pairs away none (by simpa using hma)
    have hq' : q ∈ List.zipWith (fun dh da : Option ℤ => dh.getD 0 + da.getD 0)
        (diffCol (ffill home)) (diffCol (ffill away)) := hq
    obtain ⟨dh, da, hdh, hda, rfl⟩ := exists_of_mem_zipWith hq'
    have h1 := diffCol_nonneg (ffill home) hpairsh dh hdh
    have h2 := diffCol_nonneg (ffill away) hpairsa da hda
    exact add_nonneg h1 h2

/-- C8, witness: the theorem at a concrete three-row game with nulls in
both score columns. -/
theorem claim_C8_witness :
    pointsCol [some 0, none, some 2] [some 0, some 3, none]
        = specPointsScored [some 0, none, some 2] [some 0, some 3, none]
      ∧ ∀ q ∈ pointsCol [some 0, none, some 2] [some 0, some 3, none], 0 ≤ q :=
  claim_C8_theorem [some 0, none, some 2] [some 0, some 3, none]
    ⟨0, rfl⟩ ⟨0, rfl⟩
    (by simp [List.filterMap_cons, List.chain'_cons, List.chain'_singleton])
    (by simp [List.filterMap_cons, List.chain'_cons, List.chain'_singleton])

/-! ## Claim C9: `action_id`

`cast(str)` of `action_number` is its decimal representation, i.e. Lean's
`Nat.repr`.  To reason about ordering we characterise the padded digits
arithmetically. -/

/-- Big-endian decimal digits of `n` (what `Nat.repr` produces). -/
def digitsBE (n : ℕ) : List Char :=
  if _h : n < 10 then [Nat.digitChar n]
  else digitsBE (n / 10) ++ [Nat.digitChar (n % 10)]
decreasing_by exact Nat.div_lt_self (by omega) (by omega)

/-- Fixed-width big-endian decimal digits: `beDigits k n` is the
`k`-character zero-padded decimal form of `n < 10^k`. -/
def beDigits : ℕ → ℕ → List Char
  | 0, _ => []
  | k + 1, n => Nat.digitChar (n / 10 ^ k) :: beDigits k (n % 10 ^ k)

theorem beDigits_length : ∀ k n, (beDigits k n).length = k
  | 0, _ => rfl
  | k + 1, n => by simp [beDigits, beDigits_length k]

/-- `Nat.toDigitsCore` with enough fuel produces the big-endian digits. -/
theorem toDigitsCore_eq :
    ∀ (fuel n : ℕ) (ds : List Char), n < fuel →
      Nat.toDigitsCore 10 fuel n ds = digitsBE n ++ ds := by
  intro fuel
  induction fuel with
  | zero => intro n ds h; omega
  | succ fuel ih =>
    intro n ds h
    show (if n / 10 = 0 then Nat.digitChar (n % 10) :: ds
          else Nat.toDigitsCore 10 fuel (n / 10) (Nat.digitChar (n % 10) :: ds))
        = digitsBE n ++ ds
    by_cases h10 : n < 10
    · rw [if_pos (Nat.div_eq_of_lt h10), digitsBE, dif_pos h10,
        Nat.mod_eq_of_lt h10]
      rfl
    · have hne : ¬ n / 10 = 0 := by
        intro h0
        exact h10 ((Nat.div_eq_zero_iff (by omega)).mp h0)
      have hdiv : n / 10 < fuel :=
        lt_of_lt_of_le (Nat.div_lt_self (by omega) (by omega)) (by omega)
      rw [if_neg hne, ih (n / 10) (Nat.digitChar (n % 10) :: ds) hdiv,
        show digitsBE n = digitsBE (n / 10) ++ [Nat.digitChar (n % 10)] from by
          rw [digitsBE, dif_neg h10]]
      simp [List.append_assoc]

/-- `Nat.repr` produces the big-endian digits. -/
theorem repr_data (n : ℕ) : (Nat.repr n).data = digitsBE n := by
  show (Nat.toDigits 10 n).asString.data = digitsBE n
  rw [Nat.toDigits, toDigitsCore_eq (n + 1) n [] (Nat.lt_succ_self n)]
  simp [List.asString]

theorem digitsBE_length_le :
    ∀ k n, n < 10 ^ k → 1 ≤ k → (digitsBE n).length ≤ k := by
  intro k
  induction k with
  | zero => omega
  | succ k ih =>
    intro n hn _
    by_cases h10 : n < 10
    · rw [digitsBE, dif_pos h10]
      simp
    · have hk1 : 1 ≤ k := by
        by_contra hk
        have : k = 0 := by omega
        subst this
        simp at hn
        omega
      have hdiv : n / 10 < 10 ^ k := by
        rw [Nat.div_lt_iff_lt_mul (by omega)]
        calc n < 10 ^ (k + 1) := hn
        _ = 10 ^ k * 10 := by rw [pow_succ]
      rw [digitsBE, dif_neg h10]
      have := ih (n / 10) hdiv hk1
      simp only [List.length_append, List.length_cons, List.length_nil]
      omega

theorem beDigits_snoc :
    ∀ k n, n < 10 ^ (k + 1) →
      beDigits (k + 1) n = beDigits k (n / 10) ++ [Nat.digitChar (n % 10)] := by
  intro k
  induction k with
  | zero =>
    intro n hn
    have h10 : n < 10 := by simpa using hn
    simp [beDigits, Nat.mod_eq_of_lt h10]
  | succ k ih =>
    intro n _
    have hmod : n % 10 ^ (k + 1) < 10 ^ (k + 1) := Nat.mod_lt n (by positivity)
    show Nat.digitChar (n / 10 ^ (k + 1)) :: beDigits (k + 1) (n % 10 ^ (k + 1))
      = (Nat.digitChar (n / 10 / 10 ^ k) :: beDigits k (n / 10 % 10 ^ k))
        ++ [Nat.digitChar (n % 10)]
    rw [ih (n % 10 ^ (k + 1)) hmod]
    have e1 : n / 10 / 10 ^ k = n / 10 ^ (k + 1) := by
      rw [Nat.div_div_eq_div_mul, pow_succ, mul_comm (10 ^ k) 10,
        mul_comm 10 (10 ^ k)]
    have e2 : n % 10 ^ (k + 1) / 10 = n / 10 % 10 ^ k := by
      rw [pow_succ, mul_comm (10 ^ k) 10, Nat.mod_mul_right_div_self]
    have e3 : n % 10 ^ (k + 1) % 10 = n % 10 :=
      Nat.mod_mod_of_dvd n (dvd_pow_self 10 (Nat.succ_ne_zero k))
    rw [e1, e2, e3]
    simp

/-- Zero-padding the decimal digits of `n < 10^(k+1)` to width `k+1`
gives the fixed-width big-endian form. -/
theorem beDigits_pad :
    ∀ k n, n < 10 ^ (k + 1) →
      List.replicate ((k + 1) - (digitsBE n).length) '0' ++ digitsBE n
        = beDigits (k + 1) n := by
  intro k
  induction k with
  | zero =>
    intro n hn
    have h10 : n < 10 := by simpa using hn
    rw [digitsBE, dif_pos h10]
    simp [beDigits, Nat.mod_eq_of_lt h10]
  | succ k ih =>
    intro n hn
    by_cases hlt : n < 10 ^ (k + 1)
    · have hlen : (digitsBE n).length ≤ k + 1 :=
        digitsBE_length_le (k + 1) n hlt (by omega)
      have hrep : (k + 2) - (digitsBE n).length
          = ((k + 1) - (digitsBE n).length) + 1 := by omega
      rw [hrep, List.replicate_succ, List.cons_append, ih n hlt]
      show _ = Nat.digitChar (n / 10 ^ (k + 1)) :: beDigits (k + 1) (n % 10 ^ (k + 1))
      rw [Nat.div_eq_of_lt hlt, Nat.mod_eq_of_lt hlt]
      rfl
    · have h10pow : (10 : ℕ) ≤ 10 ^ (k + 1) := by
        calc (10 : ℕ) = 10 ^ 1 := (pow_one 10).symm
        _ ≤ 10 ^ (k + 1) := Nat.pow_le_pow_right (by omega) (by omega)
      have h10 : ¬ n < 10 := by
        intro h
        exact hlt (lt_of_lt_of_le h h10pow)
      have hdiv : n / 10 < 10 ^ (k + 1) := by
        rw [Nat.div_lt_iff_lt_mul (by omega)]
        calc n < 10 ^ (k + 2) := hn
        _ = 10 ^ (k + 1) * 10 := by rw [pow_succ]
      rw [digitsBE, dif_neg h10, beDigits_snoc (k + 1) n hn, ← ih (n / 10) hdiv]
      have hlen' : (digitsBE (n / 10)).length ≤ k + 1 := by
        have hk1 : 1 ≤ k + 1 := by omega
        exact digitsBE_length_le (k + 1) (n / 10) hdiv hk1
      simp only [List.length_append, List.length_cons, List.length_nil]
      rw [show (k + 2) - ((digitsBE (n / 10)).length + (0 + 1))
          = (k + 1) - (digitsBE (n / 10)).length from by omega]
      simp [List.append_assoc]

/-- The padded `action_number` text is the fixed-width big-endian form. -/
theorem padStart_repr (n : ℕ) (hn : n < 10000) :
    (padStart 4 '0' (Nat.repr n)).data = beDigits 4 n := by
  have hlen : (Nat.repr n).length = (digitsBE n).length := by
    show (Nat.repr n).data.length = _
    rw [repr_data]
  have hle : (digitsBE n).length ≤ 4 :=
    digitsBE_length_le 4 n (by norm_num [hn]) (by omega)
  have hpad := beDigits_pad 3 n (by norm_num [hn])
  rw [padStart]
  by_cases hc : 4 ≤ (Nat.repr n).length
  · have h4 : (digitsBE n).length = 4 := by omega
    rw [if_pos hc, repr_data, ← hpad, h4]
    simp
  · rw [if_neg hc, hlen]
    show List.replicate (4 - (digitsBE n).length) '0' ++ (Nat.repr n).data = _
    rw [repr_data, ← hpad]

/-- Decimal digit characters compare like their digits. -/
theorem digitChar_lt_iff :
    ∀ a, a < 10 → ∀ b, b < 10 →
      (Nat.digitChar a < Nat.digitChar b ↔ a < b) := by
  decide

/-- Fixed-width big-endian decimal strings sort like the numbers. -/
theorem beDigits_lex :
    ∀ k m n, m < 10 ^ k → n < 10 ^ k → m < n →
      List.Lex (· < ·) (beDigits k m) (beDigits k n) := by
  intro k
  induction k with
  | zero => intro m n hm hn hmn; omega
  | succ k ih =>
    intro m n hm hn hmn
    have hmd : m / 10 ^ k < 10 := by
      rw [Nat.div_lt_iff_lt_mul (by positivity)]
      calc m < 10 ^ (k + 1) := hm
      _ = 10 * 10 ^ k := by ring
    have hnd : n / 10 ^ k < 10 := by
      rw [Nat.div_lt_iff_lt_mul (by positivity)]
      calc n < 10 ^ (k + 1) := hn
      _ = 10 * 10 ^ k := by ring
    have hle : m / 10 ^ k ≤ n / 10 ^ k :=
      Nat.div_le_div_right (le_of_lt hmn)
    rcases lt_or_eq_of_le hle with hlt | hEq
    · exact List.Lex.rel ((digitChar_lt_iff _ hmd _ hnd).mpr hlt)
    · rw [show beDigits (k + 1) m
          = Nat.digitChar (m / 10 ^ k) :: beDigits k (m % 10 ^ k) from rfl,
        show beDigits (k + 1) n
          = Nat.digitChar (n / 10 ^ k) :: beDigits k (n % 10 ^ k) from rfl,
        hEq]
      refine List.Lex.cons (ih (m % 10 ^ k) (n % 10 ^ k)
        (Nat.mod_lt m (by positivity)) (Nat.mod_lt n (by positivity)) ?_)
      have hm' := Nat.div_add_mod m (10 ^ k)
      have hn' := Nat.div_add_mod n (10 ^ k)
      rw [← hEq] at hn'
      omega

theorem beDigits_inj (m n : ℕ) (hm : m < 10000) (hn : n < 10000)
    (h : beDigits 4 m = beDigits 4 n) : m = n := by
  rcases lt_trichotomy m n with hlt | hEq | hlt
  · have hx := beDigits_lex 4 m n (by norm_num [hm]) (by norm_num [hn]) hlt
    rw [h] at hx
    exact absurd (show beDigits 4 n < beDigits 4 n from hx) (lt_irrefl _)
  · exact hEq
  · have hx := beDigits_lex 4 n m (by norm_num [hn]) (by norm_num [hm]) hlt
    rw [h] at hx
    exact absurd (show beDigits 4 n < beDigits 4 n from hx) (lt_irrefl _)

/-- Lexicographic comparison of equal-length-prefixed lists splits into a
comparison of the prefixes or of the suffixes. -/
theorem lex_append_iff {r : Char → Char → Prop} :
    ∀ (a b x y : List Char), a.length = b.length →
      (List.Lex r (a ++ x) (b ++ y) ↔
        List.Lex r a b ∨ (a = b ∧ List.Lex r x y)) := by
  intro a
  induction a with
  | nil =>
    intro b x y hlen
    have hb : b = [] := List.length_eq_zero.mp hlen.symm
    subst hb
    simp
  | cons c a' ih =>
    intro b x y hlen
    cases b with
    | nil => simp at hlen
    | cons d b' =>
      have hlen' : a'.length = b'.length := by simpa using hlen
      constructor
      · intro h
        cases h with
        | rel hr => exact Or.inl (List.Lex.rel hr)
        | cons h' =>
          rcases (ih b' x y hlen').mp h' with h1 | ⟨hEq, h2⟩
          · exact Or.inl (List.Lex.cons h1)
          · exact Or.inr ⟨by rw [hEq], h2⟩
      · intro h
        rcases h with h1 | ⟨hEq, h2⟩
        · cases h1 with
          | rel hr => exact List.Lex.rel hr
          | cons h' => exact List.Lex.cons ((ih b' x y hlen').mpr (Or.inl h'))
        · have hcd : c = d := by injection hEq
          have hab : a' = b' := by injection hEq
          subst hcd
          subst hab
          exact List.Lex.cons ((ih a' x y rfl).mpr (Or.inr ⟨rfl, h2⟩))

/-- C9, counterexample: `action_id` is not the plain concatenation of
`game_id` and the zero-padded `action_number`: the `pl.format("{}-{}", …)`
template inserts a hyphen (game `"0022200001"`, action 7 gives
`"0022200001-0007"`, not `"00222000010007"`). -/
theorem claim_C9_counterexample :
    actionIdStr "0022200001" 7 = "0022200001-0007"
    ∧ actionIdStr "0022200001" 7 ≠ "0022200001" ++ padStart 4 '0' (Nat.repr 7) := by
  decide

/-- C9, amended: `action_id` is `game_id`, a hyphen, and the
`action_number` zero-padded to 4 digits.  For game ids of equal length
(NBA ids are 10 characters) and action numbers below 10000, these strings
are unique — equality holds exactly for equal `(game_id, action_number)`
pairs — and their lexical order (the `Categorical(ordering="lexical")`
order of the column) agrees with the lexicographic order on
`(game_id, action_number)`. -/
theorem claim_C9_theorem (g1 g2 : String) (n1 n2 : ℕ)
    (hlen : g1.length = g2.length) (h1 : n1 < 10000) (h2 : n2 < 10000) :
    (actionIdStr g1 n1 = actionIdStr g2 n2 ↔ (g1 = g2 ∧ n1 = n2))
    ∧ (actionIdStr g1 n1 < actionIdStr g2 n2 ↔
        (g1 < g2 ∨ (g1 = g2 ∧ n1 < n2))) := by
  have hdata : ∀ (g : String) (n : ℕ), n < 10000 →
      (actionIdStr g n).data = g.data ++ '-' :: beDigits 4 n := by
    intro g n hn
    show (g ++ "-" ++ padStart 4 '0' (Nat.repr n)).data = _
    rw [String.data_append, String.data_append, padStart_repr n hn]
    simp
  have hdlen : g1.data.length = g2.data.length := hlen
  have hbe : ∀ n, (beDigits 4 n).length = 4 := fun n => beDigits_length 4 n
  have hlex : ∀ m n, m < 10000 → n < 10000 →
      (List.Lex (· < ·) (beDigits 4 m) (beDigits 4 n) ↔ m < n) := by
    intro m n hm hn
    constructor
    · intro h
      by_contra hmn
      rcases lt_or_eq_of_le (le_of_not_lt hmn) with hlt | hEq
      · have h' := beDigits_lex 4 n m (by norm_num [hn]) (by norm_num [hm]) hlt
        have ha : beDigits 4 m < beDigits 4 n := h
        have hb : beDigits 4 n < beDigits 4 m := h'
        exact absurd (lt_trans ha hb) (lt_irrefl _)
      · rw [hEq] at h
        exact absurd (show beDigits 4 m < beDigits 4 m from h) (lt_irrefl _)
    · exact beDigits_lex 4 m n (by norm_num [hm]) (by norm_num [hn])
  constructor
  · constructor
    · intro h
      have hd : g1.data ++ '-' :: beDigits 4 n1 = g2.data ++ '-' :: beDigits 4 n2 := by
        rw [← hdata g1 n1 h1, ← hdata g2 n2 h2, ← String.ext_iff.mp h]
      have hg : g1.data = g2.data := List.append_inj_left hd hdlen
      have htail : ('-' :: beDigits 4 n1) = '-' :: beDigits 4 n2 :=
        List.append_inj_right hd hdlen
      have hbeq : beDigits 4 n1 = beDigits 4 n2 := by injection htail
      exact ⟨String.ext hg, beDigits_inj n1 n2 h1 h2 hbeq⟩
    · intro h
      rw [h.1, h.2]
  · rw [String.lt_iff_toList_lt]
    show List.Lex (· < ·) (actionIdStr g1 n1).data (actionIdStr g2 n2).data ↔ _
    rw [hdata g1 n1 h1, hdata g2 n2 h2,
      lex_append_iff g1.data g2.data _ _ hdlen]
    constructor
    · intro h
      rcases h with h | ⟨hEq, h⟩
      · refine Or.inl ((String.lt_iff_toList_lt).mpr ?_)
        exact (h : List.Lex (· < ·) g1.data g2.data)
      · refine Or.inr ⟨String.ext hEq, ?_⟩
        have hcons := List.Lex.cons_iff.mp h
        exact (hlex n1 n2 h1 h2).mp hcons
    · intro h
      rcases h with h | ⟨hEq, h⟩
      · exact Or.inl (show List.Lex (· < ·) g1.data g2.data from
          (String.lt_iff_toList_lt).mp h)
      · refine Or.inr ⟨by rw [String.ext_iff.mp hEq], List.Lex.cons ?_⟩
        exact (hlex n1 n2 h1 h2).mpr h

/-- C9, witness: the amended theorem at two concrete action ids of the
same game: action 7 sorts before action 12 (zero-padding makes `"0007"`
precede `"0012"`). -/
theorem claim_C9_witness :
    actionIdStr "0022200001" 7 < actionIdStr "0022200001" 12 :=
  ( claim_C9_theorem "0022200001" "0022200001" 7 12 rfl (by norm_num)
    (by norm_num)).2.mpr (Or.inr ⟨rfl, by norm_num⟩)

/-! ## Claim C10: records with no v2 player row -/

/-- C10, counterexample: for an `action_id` with no row in the v2 table,
the players array is null and the scalar slot fields are null, but the
`players` field of the `Jump Ball` payload is **not** null: `concat_arr`
of two null scalars is a two-element array with two null entries, so
"every slot-derived payload field is null" fails for that field. -/
theorem claim_C10_counterexample :
    playersLookup [("0022200001-0001", [some 201939, some 2544, none])]
        "0022200001-0002" = none
    ∧ jumpBallPlayers (playersLookup
        [("0022200001-0001", [some 201939, some 2544, none])]
        "0022200001-0002")
      = [none, none] := by
  decide

/-- C10, amended: looking up player slots is total — `replace_strict`
with `default=None` maps an `action_id` absent from the v2 table to a
null players array, never an error — the record's normalization still
completes, every scalar slot-derived payload field (`by`, `on`,
`stolen_from`, `recovered_by`, `in`, `out`, `assisted_by`, …) is null,
and the jump-ball `players` field is a two-element array both of whose
entries are null. -/
theorem claim_C10_theorem (table : List (String × List (Option ℤ)))
    (aid : String) (h : ∀ row ∈ table, row.1 ≠ aid) :
    playersLookup table aid = none
    ∧ blockBy (playersLookup table aid) = none
    ∧ blockOn (playersLookup table aid) = none
    ∧ foulBy (playersLookup table aid) = none
    ∧ foulOn (playersLookup table aid) = none
    ∧ jumpBallRecoveredBy (playersLookup table aid) = none
    ∧ reboundBy (playersLookup table aid) = none
    ∧ shotBy (playersLookup table aid) = none
    ∧ shotAssistedBy (playersLookup table aid) = none
    ∧ stealBy (playersLookup table aid) = none
    ∧ stealStolenFrom (playersLookup table aid) = none
    ∧ substitutionIn (playersLookup table aid) = none
    ∧ substitutionOut (playersLookup table aid) = none
    ∧ turnoverBy (playersLookup table aid) = none
    ∧ turnoverRecoveredBy (playersLookup table aid) = none
    ∧ jumpBallPlayers (playersLookup table aid) = [none, none] := by
  have hf : table.find? (fun row => row.1 = aid) = none :=
    List.find?_eq_none.mpr fun x hx => by simpa using h x hx
  have hp : playersLookup table aid = none := by
    rw [playersLookup, hf]
  rw [hp]
  exact ⟨rfl, rfl, rfl, rfl, rfl, rfl, rfl, rfl, rfl, rfl, rfl, rfl, rfl,
    rfl, rfl, rfl⟩

/-- C10, witness: the amended theorem at a concrete one-row v2 table and
an `action_id` not in it. -/
theorem claim_C10_witness :
    playersLookup [("0022200001-0001", [some (1 : ℤ), none, some 3])]
        "0022200001-0377" = none
    ∧ blockBy (playersLookup [("0022200001-0001", [some (1 : ℤ), none, some 3])]
        "0022200001-0377") = none
    ∧ blockOn (playersLookup [("0022200001-0001", [some (1 : ℤ), none, some 3])]
        "0022200001-0377") = none
    ∧ foulBy (playersLookup [("0022200001-0001", [some (1 : ℤ), none, some 3])]
        "0022200001-0377") = none
    ∧ foulOn (playersLookup [("0022200001-0001", [some (1 : ℤ), none, some 3])]
        "0022200001-0377") = none
    ∧ jumpBallRecoveredBy (playersLookup
        [("0022200001-0001", [some (1 : ℤ), none, some 3])]
        "0022200001-0377") = none
    ∧ reboundBy (playersLookup [("0022200001-0001", [some (1 : ℤ), none, some 3])]
        "0022200001-0377") = none
    ∧ shotBy (playersLookup [("0022200001-0001", [some (1 : ℤ), none, some 3])]
        "0022200001-0377") = none
    ∧ shotAssistedBy (playersLookup
        [("0022200001-0001", [some (1 : ℤ), none, some 3])]
        "0022200001-0377") = none
    ∧ stealBy (playersLookup [("0022200001-0001", [some (1 : ℤ), none, some 3])]
        "0022200001-0377") = none
    ∧ stealStolenFrom (playersLookup
        [("0022200001-0001", [some (1 : ℤ), none, some 3])]
        "0022200001-0377") = none
    ∧ substitutionIn (playersLookup
        [("0022200001-0001", [some (1 : ℤ), none, some 3])]
        "0022200001-0377") = none
    ∧ substitutionOut (playersLookup
        [("0022200001-0001", [some (1 : ℤ), none, some 3])]
        "0022200001-0377") = none
    ∧ turnoverBy (playersLookup [("0022200001-0001", [some (1 : ℤ), none, some 3])]
        "0022200001-0377") = none
    ∧ turnoverRecoveredBy (playersLookup
        [("0022200001-0001", [some (1 : ℤ), none, some 3])]
        "0022200001-0377") = none
    ∧ jumpBallPlayers (playersLookup
        [("0022200001-0001", [some (1 : ℤ), none, some 3])]
        "0022200001-0377") = [none, none] :=
  claim_C10_theorem [("0022200001-0001", [some 1, none, some 3])]
    "0022200001-0377" (by decide)

end Sport2Vec
